import Mathlib

/-!
Verification of the goredislite repository: a shallow embedding of its
RESP2 wire codec, key-value store, command handler and connection manager,
with theorems settling the frozen claims about the specification.

Go strings are byte sequences; they are modelled as lists of natural
numbers (one entry per byte). Go int and int64 values are modelled as Int
together with explicit 64-bit range conditions where the code applies them.
-/

namespace GoRedisLite

/-- Bytes of an ASCII string literal, one natural number per character. -/
def strBytes (s : String) : List Nat := s.data.map Char.toNat

/-- Model of the Go struct RESPValue (internal/resp2), as the tagged union
its Type field encodes: the five markers plus the two null forms that the
code distinguishes through the Null flag. -/
inductive RESPValue where
  | simpleString (s : List Nat)
  | errorMsg (s : List Nat)
  | integer (i : Int)
  | bulkString (s : List Nat)
  | nullBulkString
  | arrayV (elems : List RESPValue)
  | nullArray
deriving Repr

mutual

/-- Boolean structural equality of two protocol values. -/
def rvBeq : RESPValue → RESPValue → Bool
  | .simpleString a, .simpleString b => a == b
  | .errorMsg a, .errorMsg b => a == b
  | .integer a, .integer b => a == b
  | .bulkString a, .bulkString b => a == b
  | .nullBulkString, .nullBulkString => true
  | .arrayV as, .arrayV bs => rvBeqList as bs
  | .nullArray, .nullArray => true
  | _, _ => false

/-- Boolean elementwise equality of two lists of protocol values. -/
def rvBeqList : List RESPValue → List RESPValue → Bool
  | [], [] => true
  | a :: as, b :: bs => rvBeq a b && rvBeqList as bs
  | _, _ => false

end

mutual

/-- Correctness of rvBeq: it decides structural equality. -/
theorem rvBeq_iff : (a b : RESPValue) → (rvBeq a b = true ↔ a = b)
  | .simpleString _, b => by cases b <;> simp [rvBeq]
  | .errorMsg _, b => by cases b <;> simp [rvBeq]
  | .integer _, b => by cases b <;> simp [rvBeq]
  | .bulkString _, b => by cases b <;> simp [rvBeq]
  | .nullBulkString, b => by cases b <;> simp [rvBeq]
  | .nullArray, b => by cases b <;> simp [rvBeq]
  | .arrayV as, .arrayV bs => by simp [rvBeq, rvBeqList_iff as bs]
  | .arrayV _, .simpleString _ => by simp [rvBeq]
  | .arrayV _, .errorMsg _ => by simp [rvBeq]
  | .arrayV _, .integer _ => by simp [rvBeq]
  | .arrayV _, .bulkString _ => by simp [rvBeq]
  | .arrayV _, .nullBulkString => by simp [rvBeq]
  | .arrayV _, .nullArray => by simp [rvBeq]

/-- Correctness of rvBeqList: it decides equality of lists of values. -/
theorem rvBeqList_iff : (as bs : List RESPValue) → (rvBeqList as bs = true ↔ as = bs)
  | [], [] => by simp [rvBeqList]
  | [], _ :: _ => by simp [rvBeqList]
  | _ :: _, [] => by simp [rvBeqList]
  | a :: as, b :: bs => by
    simp [rvBeqList, rvBeq_iff a b, rvBeqList_iff as bs]

end

instance : DecidableEq RESPValue := fun a b =>
  decidable_of_iff (rvBeq a b = true) (rvBeq_iff a b)

/-- Little-endian decimal digits of a natural number, computed with
explicit fuel so that the definition evaluates by kernel reduction. -/
def digitsLE : Nat → Nat → List Nat
  | 0, _ => []
  | fuel + 1, n => if n = 0 then [] else n % 10 :: digitsLE fuel (n / 10)

/-- Decimal digit bytes of a natural number, most significant first, as
produced by the Go fmt verb for a non-negative integer. -/
def natDecimal (n : Nat) : List Nat :=
  if n = 0 then [48] else (digitsLE (n + 1) n).reverse.map (fun d => d + 48)

/-- Decimal byte form of an integer, with a leading minus byte when
negative, as produced by the Go fmt verb used in Serialize. -/
def intDecimal (i : Int) : List Nat :=
  if i < 0 then 45 :: natDecimal i.natAbs else natDecimal i.toNat

/-- The two-byte line terminator written after every line. -/
def crlf : List Nat := [13, 10]

mutual

/-- Model of DefaultRESP2Parser.Serialize: marker byte, payload and
terminator per variant; a null bulk string and a null array use the
reserved length -1 forms. -/
def serialize : RESPValue → List Nat
  | .simpleString s => 43 :: (s ++ crlf)
  | .errorMsg s => 45 :: (s ++ crlf)
  | .integer i => 58 :: (intDecimal i ++ crlf)
  | .bulkString s => 36 :: (natDecimal s.length ++ crlf ++ s ++ crlf)
  | .nullBulkString => [36, 45, 49, 13, 10]
  | .arrayV es => 42 :: (natDecimal es.length ++ crlf ++ serializeList es)
  | .nullArray => [42, 45, 49, 13, 10]

/-- Concatenated serializations of the elements of an array, in order. -/
def serializeList : List RESPValue → List Nat
  | [] => []
  | v :: vs => serialize v ++ serializeList vs

end

/-- Model of bufio ReadString with the newline delimiter: take bytes up to
and including the first line feed, or fail at end of input; the second
component is the unread remainder of the stream. -/
def readUntilLF : List Nat → Option (List Nat × List Nat)
  | [] => none
  | b :: rest =>
    if b = 10 then some ([10], rest)
    else
      match readUntilLF rest with
      | some (line, r) => some (b :: line, r)
      | none => none

/-- Model of DefaultRESP2Parser.readLine: read through the first line feed,
require the line to end with the two-byte terminator, and return the line
content without it. -/
def readLine (input : List Nat) : Option (List Nat × List Nat) :=
  match readUntilLF input with
  | none => none
  | some (line, rest) =>
    if line.length < 2 then none
    else if line.drop (line.length - 2) ≠ crlf then none
    else some (line.take (line.length - 2), rest)

/-- Recognizer for an ASCII decimal digit byte. -/
def isDigitByte (c : Nat) : Bool := 48 ≤ c && c ≤ 57

/-- Value of a non-empty all-digit byte sequence, most significant first. -/
def digitsToNat (s : List Nat) : Option Nat :=
  if s.isEmpty then none
  else if s.all isDigitByte then
    some (s.foldl (fun acc c => acc * 10 + (c - 48)) 0)
  else none

/-- Largest value of the Go int64 type. -/
def int64Max : Int := 9223372036854775807

/-- Smallest value of the Go int64 type. -/
def int64Min : Int := -9223372036854775808

/-- Magnitude and range step of strconv signed decimal parsing: the digit
bytes give the magnitude, the sign is applied, and the result must fit in
the int64 range. -/
def parseSigned (neg : Bool) (ds : List Nat) : Option Int :=
  match digitsToNat ds with
  | none => none
  | some n =>
    if (if neg then -(n : Int) else (n : Int)) < int64Min ∨
        int64Max < (if neg then -(n : Int) else (n : Int)) then none
    else some (if neg then -(n : Int) else (n : Int))

/-- Model of strconv 64-bit signed decimal parsing as used through Atoi and
ParseInt: an optional sign byte, then one or more digit bytes, with the
result required to fit in int64. -/
def parseIntBytes (s : List Nat) : Option Int :=
  match s with
  | [] => none
  | c :: rest =>
    if c = 45 then parseSigned true rest
    else if c = 43 then parseSigned false rest
    else parseSigned false s

/-- Model of DefaultRESP2Parser.parseBulkString, applied to the stream
positioned just after the dollar marker: read a decimal length line; length
-1 gives the null bulk string, other negative lengths fail; otherwise read
exactly that many raw bytes with ReadFull, then read and discard one more
line through readLine. -/
def parseBulk (input : List Nat) : Option (RESPValue × List Nat) :=
  match readLine input with
  | none => none
  | some (line, rest) =>
    match parseIntBytes line with
    | none => none
    | some len =>
      if len = -1 then some (.nullBulkString, rest)
      else if len < 0 then none
      else
        if rest.length < len.toNat then none
        else
          match readLine (rest.drop len.toNat) with
          | none => none
          | some (_, r2) => some (.bulkString (rest.take len.toNat), r2)

/-- Loop of DefaultRESP2Parser.parseArray: parse a given number of nested
values in order with the supplied value parser, propagating any failure. -/
def parseCount (p : List Nat → Option (RESPValue × List Nat)) :
    Nat → List Nat → Option (List RESPValue × List Nat)
  | 0, input => some ([], input)
  | k + 1, input =>
    match p input with
    | none => none
    | some (v, rest) =>
      match parseCount p k rest with
      | none => none
      | some (vs, r) => some (v :: vs, r)

/-- One dispatch step of DefaultRESP2Parser.Parse: read the marker byte and
dispatch on it, with nested values of an array parsed by the supplied
recursive parser; an unrecognized marker fails. -/
def parseStep (recur : List Nat → Option (RESPValue × List Nat))
    (input : List Nat) : Option (RESPValue × List Nat) :=
  match input with
  | [] => none
  | b :: rest =>
    if b = 43 then
      match readLine rest with
      | none => none
      | some (line, r) => some (.simpleString line, r)
    else if b = 45 then
      match readLine rest with
      | none => none
      | some (line, r) => some (.errorMsg line, r)
    else if b = 58 then
      match readLine rest with
      | none => none
      | some (line, r) =>
        match parseIntBytes line with
        | none => none
        | some n => some (.integer n, r)
    else if b = 36 then parseBulk rest
    else if b = 42 then
      match readLine rest with
      | none => none
      | some (line, r) =>
        match parseIntBytes line with
        | none => none
        | some len =>
          if len = -1 then some (.nullArray, r)
          else if len < 0 then none
          else
            match parseCount recur len.toNat r with
            | none => none
            | some (es, r2) => some (.arrayV es, r2)
    else none

/-- Fuelled form of DefaultRESP2Parser.Parse; the fuel only bounds the
nesting depth of arrays and never runs out when it exceeds the length of
the input, since every nested Parse call first consumes a marker byte. -/
def parseFuel : Nat → List Nat → Option (RESPValue × List Nat)
  | 0 => fun _ => none
  | fuel + 1 => parseStep (parseFuel fuel)

/-- Model of DefaultRESP2Parser.Parse on a finite byte stream: consume one
complete protocol value and return it with the unread remainder. -/
def parseGo (input : List Nat) : Option (RESPValue × List Nat) :=
  parseFuel (input.length + 1) input

mutual

/-- Constructibility of a protocol value in the Go data model: integer
payloads are int64 values and string or array lengths fit in the int64
range that the strconv length check admits. -/
def goWF : RESPValue → Bool
  | .simpleString _ => true
  | .errorMsg _ => true
  | .integer i => decide (int64Min ≤ i ∧ i ≤ int64Max)
  | .bulkString s => decide ((s.length : Int) ≤ int64Max)
  | .nullBulkString => true
  | .arrayV es => decide ((es.length : Int) ≤ int64Max) && goWFList es
  | .nullArray => true

/-- Constructibility of every element of an array. -/
def goWFList : List RESPValue → Bool
  | [] => true
  | v :: vs => goWF v && goWFList vs

end

mutual

/-- Absence of the line feed byte from every simple string and error
payload, recursively through arrays. -/
def noLF : RESPValue → Bool
  | .simpleString s => decide (10 ∉ s)
  | .errorMsg s => decide (10 ∉ s)
  | .arrayV es => noLFList es
  | _ => true

/-- Absence of the line feed byte from the line-oriented payloads of every
element of an array. -/
def noLFList : List RESPValue → Bool
  | [] => true
  | v :: vs => noLF v && noLFList vs

end

mutual

/-- Nesting depth of a protocol value, used as fuel for the parser. -/
def depth : RESPValue → Nat
  | .simpleString _ => 1
  | .errorMsg _ => 1
  | .integer _ => 1
  | .bulkString _ => 1
  | .nullBulkString => 1
  | .arrayV es => depthList es + 1
  | .nullArray => 1

/-- Largest nesting depth among the elements of an array. -/
def depthList : List RESPValue → Nat
  | [] => 0
  | v :: vs => max (depth v) (depthList vs)

end

/-- Occurrence of the two-byte terminator sequence inside a byte list, the
caveat the round-trip claim places on simple string and error content. -/
def containsCRLF : List Nat → Bool
  | [] => false
  | [_] => false
  | a :: b :: r => (a == 13 && b == 10) || containsCRLF (b :: r)

/-- Model of the map inside InMemoryStore (internal/store): the partial
mapping from key bytes to value bytes; the Go mutex only serializes access
and has no sequential behavior. -/
def Store := List Nat → Option (List Nat)

/-- Model of InMemoryStore.Set: unconditional upsert. -/
def storeSet (s : Store) (k v : List Nat) : Store :=
  fun j => if j = k then some v else s j

/-- Model of InMemoryStore.Get: the value and the found flag, as an
optional value. -/
def storeGet (s : Store) (k : List Nat) : Option (List Nat) := s k

/-- Model of InMemoryStore.Exists. -/
def storeExists (s : Store) (k : List Nat) : Bool := (s k).isSome

/-- Removal of one key from the map, as the Go builtin delete does. -/
def storeErase (s : Store) (k : List Nat) : Store :=
  fun j => if j = k then none else s j

/-- Model of InMemoryStore.Delete: report whether the key was present and
remove it. -/
def storeDelete (s : Store) (k : List Nat) : Bool × Store :=
  if (s k).isSome then (true, storeErase s k) else (false, s)

/-- Model of InMemoryStore.DeleteMultiple: walk the keys in order, remove
each present key and count the removals. -/
def storeDeleteMultiple (s : Store) : List (List Nat) → Nat × Store
  | [] => (0, s)
  | k :: ks =>
    if (s k).isSome then
      let r := storeDeleteMultiple (storeErase s k) ks
      (r.1 + 1, r.2)
    else storeDeleteMultiple s ks

/-- Model of the resp2 Command struct: an upper-cased name and the
positional arguments, all byte strings. -/
structure Command where
  name : List Nat
  args : List (List Nat)

/-- Byte form of the Go arity error message, which quotes the command name
between two apostrophe bytes. -/
def wrongArgsMsg (name : List Nat) : List Nat :=
  strBytes "ERR wrong number of arguments for " ++ [39] ++ name ++ [39] ++ strBytes " command"

/-- Byte form of the Go unknown-command error message. -/
def unknownCmdMsg (name : List Nat) : List Nat :=
  strBytes "ERR unknown command " ++ [39] ++ name ++ [39]

/-- Model of DefaultCommandHandler.handlePing: no arguments answer PONG,
one argument is echoed as a bulk string, more arguments are an arity
error. -/
def handlePing : List (List Nat) → RESPValue
  | [] => .simpleString (strBytes "PONG")
  | [m] => .bulkString m
  | _ => .errorMsg (wrongArgsMsg (strBytes "PING"))

/-- Model of DefaultCommandHandler.handleSet, returning the reply and the
store after the call. -/
def handleSet (s : Store) : List (List Nat) → RESPValue × Store
  | [k, v] => (.simpleString (strBytes "OK"), storeSet s k v)
  | _ => (.errorMsg (wrongArgsMsg (strBytes "SET")), s)

/-- Model of DefaultCommandHandler.handleGet, returning the reply and the
store after the call; a present key answers its value as a bulk string, an
absent key answers the null bulk string. -/
def handleGet (s : Store) : List (List Nat) → RESPValue × Store
  | [k] =>
    match s k with
    | some v => (.bulkString v, s)
    | none => (.nullBulkString, s)
  | _ => (.errorMsg (wrongArgsMsg (strBytes "GET")), s)

/-- Counting loop of DefaultCommandHandler.handleExists: one per argument
occurrence whose key is present. -/
def countExists (s : Store) : List (List Nat) → Int
  | [] => 0
  | k :: ks => (if (s k).isSome then 1 else 0) + countExists s ks

/-- Model of DefaultCommandHandler.handleExists, returning the reply and
the store after the call. -/
def handleExists (s : Store) (args : List (List Nat)) : RESPValue × Store :=
  match args with
  | [] => (.errorMsg (wrongArgsMsg (strBytes "EXISTS")), s)
  | _ => (.integer (countExists s args), s)

/-- Model of DefaultCommandHandler.handleDel, returning the reply and the
store after the call; a single key goes through Delete, several through
DeleteMultiple. -/
def handleDel (s : Store) (args : List (List Nat)) : RESPValue × Store :=
  match args with
  | [] => (.errorMsg (wrongArgsMsg (strBytes "DEL")), s)
  | [k] =>
    let r := storeDelete s k
    (.integer (if r.1 then 1 else 0), r.2)
  | _ =>
    let r := storeDeleteMultiple s args
    (.integer (r.1 : Int), r.2)

/-- Model of DefaultCommandHandler.Execute: a nil command is rejected,
then dispatch on the command name; an unknown name is reported in an error
message quoting it. The Go nil pointer is the none case. -/
def execute (cmd : Option Command) (s : Store) : RESPValue × Store :=
  match cmd with
  | none => (.errorMsg (strBytes "ERR command cannot be nil"), s)
  | some c =>
    if c.name = strBytes "PING" then (handlePing c.args, s)
    else if c.name = strBytes "SET" then handleSet s c.args
    else if c.name = strBytes "GET" then handleGet s c.args
    else if c.name = strBytes "EXISTS" then handleExists s c.args
    else if c.name = strBytes "DEL" then handleDel s c.args
    else (.errorMsg (unknownCmdMsg c.name), s)

/-- Model of the DefaultConnectionManager state (internal/connection):
the tracked connections as identifier and last-activity pairs together
with the configured maximum; transports and buffers carry no sequential
state that the claims touch. -/
structure ConnManager where
  connections : List (Nat × Int)
  maxClients : Int

/-- Insertion into the Go connections map: replace the entry of an already
present identifier, otherwise add a new entry. -/
def connInsert (l : List (Nat × Int)) (id : Nat) (t : Int) : List (Nat × Int) :=
  if l.any (fun p => p.1 = id) then l.map (fun p => if p.1 = id then (id, t) else p)
  else (id, t) :: l

/-- Model of DefaultConnectionManager.AddConnection: refuse with the nil
sentinel when a positive configured maximum has been reached, otherwise
track the connection under the freshly generated identifier with the
current timestamp. The generated identifier and the clock reading are
passed in, standing for the random generator and the wall clock. -/
def addConnection (cm : ConnManager) (newId : Nat) (now : Int) :
    Option Nat × ConnManager :=
  if 0 < cm.maxClients ∧ cm.maxClients ≤ (cm.connections.length : Int) then
    (none, cm)
  else
    (some newId, ⟨connInsert cm.connections newId now, cm.maxClients⟩)

/-- Elements of a constructible array are constructible. -/
theorem goWFList_mem {v : RESPValue} :
    ∀ {es : List RESPValue}, goWFList es = true → v ∈ es → goWF v = true
  | [], _, hv => by cases hv
  | a :: l, h, hv => by
    rw [goWFList, Bool.and_eq_true] at h
    rcases List.mem_cons.mp hv with hv | hv
    · exact hv ▸ h.1
    · exact goWFList_mem h.2 hv

/-- Elements of a line-feed-free array are line-feed-free. -/
theorem noLFList_mem {v : RESPValue} :
    ∀ {es : List RESPValue}, noLFList es = true → v ∈ es → noLF v = true
  | [], _, hv => by cases hv
  | a :: l, h, hv => by
    rw [noLFList, Bool.and_eq_true] at h
    rcases List.mem_cons.mp hv with hv | hv
    · exact hv ▸ h.1
    · exact noLFList_mem h.2 hv

/-- Every element of an array is at most as deep as the array contents. -/
theorem depthList_mem {v : RESPValue} :
    ∀ {es : List RESPValue}, v ∈ es → depth v ≤ depthList es
  | [], hv => by cases hv
  | a :: l, hv => by
    rw [depthList]
    rcases List.mem_cons.mp hv with hv | hv
    · exact hv ▸ Nat.le_max_left _ _
    · exact Nat.le_trans (depthList_mem hv) (Nat.le_max_right _ _)

mutual

/-- The nesting depth of a value is bounded by its serialized length. -/
theorem depth_le_serialize : (v : RESPValue) → depth v ≤ (serialize v).length
  | .simpleString s => by simp [depth, serialize]
  | .errorMsg s => by simp [depth, serialize]
  | .integer i => by simp [depth, serialize]
  | .bulkString s => by simp [depth, serialize]
  | .nullBulkString => by simp [depth, serialize]
  | .arrayV es => by
    have h := depthList_le_serializeList es
    simp only [depth, serialize, List.length_cons, List.length_append]
    omega
  | .nullArray => by simp [depth, serialize]

/-- The depth of array contents is bounded by their serialized length. -/
theorem depthList_le_serializeList : (es : List RESPValue) → depthList es ≤ (serializeList es).length
  | [] => by simp [depthList, serializeList]
  | v :: vs => by
    have h1 := depth_le_serialize v
    have h2 := depthList_le_serializeList vs
    simp only [depthList, serializeList, List.length_append]
    omega

end

/-- With enough fuel, digitsLE agrees with the Mathlib digits function. -/
theorem digitsLE_eq_digits : ∀ fuel n, n < fuel → digitsLE fuel n = Nat.digits 10 n := by
  intro fuel
  induction fuel with
  | zero => intro n h; omega
  | succ f ih =>
    intro n h
    by_cases h0 : n = 0
    · simp [digitsLE, h0]
    · rw [digitsLE, if_neg h0, Nat.digits_def' (by norm_num) (Nat.pos_of_ne_zero h0),
        ih (n / 10)]
      have : n / 10 < n := Nat.div_lt_self (Nat.pos_of_ne_zero h0) (by norm_num)
      omega

/-- Unfolding of natDecimal through the Mathlib digits function. -/
theorem natDecimal_eq (n : Nat) (h : n ≠ 0) :
    natDecimal n = (Nat.digits 10 n).reverse.map (fun d => d + 48) := by
  rw [natDecimal, if_neg h, digitsLE_eq_digits (n + 1) n (Nat.lt_succ_self n)]

/-- Folding decimal accumulation over a most-significant-first digit list
computes the value of the reversed little-endian digit list. -/
theorem foldl_base10 (L : List Nat) (acc : Nat) :
    L.foldl (fun a d => a * 10 + d) acc = acc * 10 ^ L.length + Nat.ofDigits 10 L.reverse := by
  induction L generalizing acc with
  | nil => simp
  | cons d L ih =>
    rw [List.foldl_cons, ih, List.reverse_cons, Nat.ofDigits_append]
    simp only [List.length_cons, List.length_reverse, Nat.ofDigits_singleton]
    ring

/-- Every byte of the decimal form of a natural number is a digit byte. -/
theorem natDecimal_mem_digit {n c : Nat} (hc : c ∈ natDecimal n) : 48 ≤ c ∧ c ≤ 57 := by
  by_cases h0 : n = 0
  · subst h0
    rw [show natDecimal 0 = [48] from rfl, List.mem_singleton] at hc
    omega
  · rw [natDecimal_eq n h0, List.mem_map] at hc
    obtain ⟨d, hd, rfl⟩ := hc
    have : d < 10 := Nat.digits_lt_base (by norm_num) (List.mem_reverse.mp hd)
    omega

/-- The decimal form of a natural number is never empty. -/
theorem natDecimal_ne_nil (n : Nat) : natDecimal n ≠ [] := by
  by_cases h0 : n = 0
  · subst h0; simp [natDecimal]
  · rw [natDecimal_eq n h0]
    simp [Nat.digits_ne_nil_iff_ne_zero.mpr h0]

/-- The decimal form of a natural number contains no line feed byte. -/
theorem natDecimal_no_lf (n : Nat) : (10 : Nat) ∉ natDecimal n := by
  intro h
  have := natDecimal_mem_digit h
  omega

/-- The decimal form of an integer contains no line feed byte. -/
theorem intDecimal_no_lf (i : Int) : (10 : Nat) ∉ intDecimal i := by
  rw [intDecimal]
  split
  · intro h
    rcases List.mem_cons.mp h with h | h
    · omega
    · exact natDecimal_no_lf _ h
  · exact natDecimal_no_lf _

/-- Reading back the decimal digit bytes of a natural number recovers it. -/
theorem digitsToNat_natDecimal (n : Nat) : digitsToNat (natDecimal n) = some n := by
  have hall : (natDecimal n).all isDigitByte = true := by
    rw [List.all_eq_true]
    intro c hc
    have := natDecimal_mem_digit hc
    simp only [isDigitByte, Bool.and_eq_true, decide_eq_true_eq]
    omega
  rw [digitsToNat, if_neg (by simp [natDecimal_ne_nil n]), if_pos hall]
  by_cases h0 : n = 0
  · subst h0; simp [natDecimal]
  · rw [natDecimal_eq n h0, List.foldl_map]
    have hstep : (fun (a : Nat) (d : Nat) => a * 10 + (d + 48 - 48)) =
        (fun (a : Nat) (d : Nat) => a * 10 + d) := by
      funext a d; omega
    rw [hstep, foldl_base10, List.reverse_reverse, Nat.ofDigits_digits]
    simp

/-- Parsing without a sign byte the decimal digit bytes of a natural
number within the int64 range recovers it. -/
theorem parseSigned_natDecimal (n : Nat) (h : (n : Int) ≤ int64Max) :
    parseSigned false (natDecimal n) = some (n : Int) := by
  rw [parseSigned, digitsToNat_natDecimal]
  simp only [Bool.false_eq_true, if_false]
  rw [if_neg]
  simp only [int64Min] at *
  push_neg
  omega

/-- Parsing the decimal digit bytes of a natural number within the int64
range recovers it. -/
theorem parseIntBytes_natDecimal (n : Nat) (h : (n : Int) ≤ int64Max) :
    parseIntBytes (natDecimal n) = some (n : Int) := by
  obtain ⟨c, cs, hc⟩ := List.exists_cons_of_ne_nil (natDecimal_ne_nil n)
  have h48 : 48 ≤ c := (natDecimal_mem_digit (hc ▸ List.mem_cons_self c cs)).1
  rw [hc, parseIntBytes, if_neg (by omega : ¬c = 45), if_neg (by omega : ¬c = 43), ← hc]
  exact parseSigned_natDecimal n h

/-- Parsing the decimal byte form of an int64 value recovers it. -/
theorem parseIntBytes_intDecimal (i : Int) (h1 : int64Min ≤ i) (h2 : i ≤ int64Max) :
    parseIntBytes (intDecimal i) = some i := by
  rw [intDecimal]
  by_cases hneg : i < 0
  · have hcond : ¬(-((i.natAbs : Nat) : Int) < int64Min ∨ int64Max < -((i.natAbs : Nat) : Int)) := by
      unfold int64Min int64Max at *
      omega
    rw [if_pos hneg, parseIntBytes, if_pos rfl, parseSigned, digitsToNat_natDecimal]
    simp only [if_true]
    rw [if_neg hcond]
    congr 1
    omega
  · rw [if_neg hneg, parseIntBytes_natDecimal i.toNat (by omega)]
    congr 1
    omega

/-- Reading through the first line feed of a stream that starts with a
line-feed-free block followed by a line feed returns that block with the
line feed appended. -/
theorem readUntilLF_append (line rest : List Nat) (h : (10 : Nat) ∉ line) :
    readUntilLF (line ++ 10 :: rest) = some (line ++ [10], rest) := by
  induction line with
  | nil => simp [readUntilLF]
  | cons a l ih =>
    have ha : a ≠ 10 := fun e => h (e ▸ List.mem_cons_self a l)
    rw [List.cons_append, readUntilLF, if_neg ha,
      ih (fun hm => h (List.mem_cons_of_mem a hm))]
    rfl

/-- Reading a line from a stream that starts with line-feed-free content
followed by the terminator returns the content and the remainder. -/
theorem readLine_append (content rest : List Nat) (h : (10 : Nat) ∉ content) :
    readLine (content ++ 13 :: 10 :: rest) = some (content, rest) := by
  have h13 : (10 : Nat) ∉ content ++ [13] := by
    intro hm
    rcases List.mem_append.mp hm with hm | hm
    · exact h hm
    · simp at hm
  have hr := readUntilLF_append (content ++ [13]) rest h13
  rw [readLine, show content ++ 13 :: 10 :: rest = (content ++ [13]) ++ 10 :: rest by simp, hr]
  dsimp only
  have hassoc : (content ++ [13]) ++ [10] = content ++ [13, 10] := by simp
  have hlen : (content ++ [13, 10]).length = content.length + 2 := by simp
  have hdrop : (content ++ [13, 10]).drop (content.length + 2 - 2) = [13, 10] := by
    rw [Nat.add_sub_cancel, List.drop_left]
  have htake : (content ++ [13, 10]).take (content.length + 2 - 2) = content := by
    rw [Nat.add_sub_cancel, List.take_left]
  rw [hassoc, hlen, if_neg (by omega), hdrop, htake, if_neg (by simp [crlf])]

/-- Characterization of a successful readUntilLF: the input splits into the
returned line, which consists of a line-feed-free block with the line feed
as its final byte, and the remainder. -/
theorem readUntilLF_some : ∀ (input line rest : List Nat),
    readUntilLF input = some (line, rest) →
    input = line ++ rest ∧ ∃ pre, line = pre ++ [10] ∧ (10 : Nat) ∉ pre
  | [], line, rest => by intro h; simp [readUntilLF] at h
  | b :: input, line, rest => by
    intro h
    rw [readUntilLF] at h
    by_cases hb : b = 10
    · rw [if_pos hb] at h
      injection h with h
      injection h with h1 h2
      subst h1
      subst h2
      subst hb
      exact ⟨rfl, [], rfl, by simp⟩
    · rw [if_neg hb] at h
      rcases hrec : readUntilLF input with _ | p
      · rw [hrec] at h
        exact absurd h (by simp)
      · obtain ⟨l2, r2⟩ := p
        rw [hrec] at h
        dsimp only at h
        injection h with h
        injection h with h1 h2
        subst h1
        subst h2
        obtain ⟨heq, pre, hpre, hnmem⟩ := readUntilLF_some input l2 r2 hrec
        refine ⟨by simp [heq], b :: pre, by simp [hpre], ?_⟩
        intro hm
        rcases List.mem_cons.mp hm with hm | hm
        · exact hb hm.symm
        · exact hnmem hm

/-- Characterization of a successful readLine: the input is exactly the
returned line-feed-free content, the two terminator bytes, and the
remainder. -/
theorem readLine_some_iff (input content r : List Nat) :
    readLine input = some (content, r) ↔
      (10 : Nat) ∉ content ∧ input = content ++ 13 :: 10 :: r := by
  constructor
  · intro h
    rw [readLine] at h
    rcases hu : readUntilLF input with _ | p
    · rw [hu] at h
      exact absurd h (by simp)
    · obtain ⟨line, rest⟩ := p
      rw [hu] at h
      dsimp only at h
      obtain ⟨heq, pre, hpre, hnmem⟩ := readUntilLF_some input line rest hu
      by_cases hlen : line.length < 2
      · rw [if_pos hlen] at h
        exact absurd h (by simp)
      · rw [if_neg hlen] at h
        by_cases hcr : line.drop (line.length - 2) ≠ crlf
        · rw [if_pos hcr] at h
          exact absurd h (by simp)
        · rw [if_neg hcr] at h
          push_neg at hcr
          injection h with h
          injection h with h1 h2
          subst h1
          subst h2
          have hplen : line.length = pre.length + 1 := by simp [hpre]
          have hline : line = line.take (line.length - 2) ++ [13, 10] := by
            conv_lhs => rw [← List.take_append_drop (line.length - 2) line]
            rw [hcr, crlf]
          constructor
          · intro hm
            have hsub : line.take (line.length - 2) = pre.take (pre.length - 1) := by
              rw [hpre]
              simp only [List.length_append, List.length_singleton]
              rw [List.take_append_of_le_length (by omega)]
              congr 1
            rw [hsub] at hm
            exact hnmem (List.take_subset _ _ hm)
          · rw [heq]
            conv_lhs => rw [hline]
            simp
  · rintro ⟨h1, h2⟩
    rw [h2]
    exact readLine_append content r h1

/-- Every protocol value has positive nesting depth. -/
theorem one_le_depth (v : RESPValue) : 1 ≤ depth v := by
  cases v <;> simp [depth]

/-- Parsing a count of serialized values placed before any remainder
returns exactly those values and the remainder, provided the supplied
parser round-trips each element. -/
theorem parseCount_serializeList (p : List Nat → Option (RESPValue × List Nat)) :
    ∀ (es : List RESPValue) (rest : List Nat),
      (∀ v ∈ es, ∀ r, p (serialize v ++ r) = some (v, r)) →
      parseCount p es.length (serializeList es ++ rest) = some (es, rest)
  | [], rest => by
    intro _
    rw [serializeList, List.length_nil, parseCount, List.nil_append]
  | v :: vs, rest => by
    intro H
    rw [serializeList, List.length_cons, parseCount, List.append_assoc,
      H v (List.mem_cons_self v vs) (serializeList vs ++ rest)]
    dsimp only
    rw [parseCount_serializeList p vs rest (fun w hw r => H w (List.mem_cons_of_mem v hw) r)]

/-- Round trip at the fuelled parser: parsing the serialization of a
constructible, line-feed-free protocol value placed before any remainder
returns that value and the remainder, for any fuel above its depth. -/
theorem parseFuel_serialize : ∀ (fuel : Nat) (v : RESPValue) (rest : List Nat),
    goWF v = true → noLF v = true → depth v ≤ fuel →
    parseFuel fuel (serialize v ++ rest) = some (v, rest) := by
  intro fuel
  induction fuel with
  | zero =>
    intro v rest _ _ hd
    exact absurd hd (by have := one_le_depth v; omega)
  | succ fuel ih =>
    intro v rest hwf hlf hd
    rw [parseFuel]
    cases v with
    | simpleString s =>
      rw [noLF, decide_eq_true_eq] at hlf
      rw [serialize, show (43 :: (s ++ crlf)) ++ rest = 43 :: (s ++ 13 :: 10 :: rest) by
        simp [crlf], parseStep, if_pos rfl, readLine_append s rest hlf]
    | errorMsg s =>
      rw [noLF, decide_eq_true_eq] at hlf
      rw [serialize, show (45 :: (s ++ crlf)) ++ rest = 45 :: (s ++ 13 :: 10 :: rest) by
        simp [crlf], parseStep, if_neg (by decide), if_pos rfl, readLine_append s rest hlf]
    | integer i =>
      rw [goWF, decide_eq_true_eq] at hwf
      rw [serialize, show (58 :: (intDecimal i ++ crlf)) ++ rest =
        58 :: (intDecimal i ++ 13 :: 10 :: rest) by simp [crlf], parseStep,
        if_neg (by decide), if_neg (by decide), if_pos rfl,
        readLine_append (intDecimal i) rest (intDecimal_no_lf i)]
      dsimp only
      rw [parseIntBytes_intDecimal i hwf.1 hwf.2]
    | bulkString s =>
      rw [goWF, decide_eq_true_eq] at hwf
      rw [serialize, show (36 :: (natDecimal s.length ++ crlf ++ s ++ crlf)) ++ rest =
        36 :: (natDecimal s.length ++ 13 :: 10 :: (s ++ 13 :: 10 :: rest)) by simp [crlf],
        parseStep, if_neg (by decide), if_neg (by decide), if_neg (by decide), if_pos rfl,
        parseBulk, readLine_append (natDecimal s.length) _ (natDecimal_no_lf _)]
      dsimp only
      rw [parseIntBytes_natDecimal s.length hwf]
      dsimp only
      rw [if_neg (by omega), if_neg (by omega), Int.toNat_natCast,
        if_neg (by simp), List.drop_left]
      have h0 : readLine (13 :: 10 :: rest) = some ([], rest) :=
        readLine_append [] rest (by simp)
      rw [h0]
      dsimp only
      rw [List.take_left]
    | nullBulkString =>
      rw [serialize, show ([36, 45, 49, 13, 10] : List Nat) ++ rest =
        36 :: (45 :: 49 :: 13 :: 10 :: rest) by simp, parseStep,
        if_neg (by decide), if_neg (by decide), if_neg (by decide), if_pos rfl, parseBulk]
      have hr : readLine (45 :: 49 :: 13 :: 10 :: rest) = some ([45, 49], rest) :=
        readLine_append [45, 49] rest (by simp)
      rw [hr]
      dsimp only
      rw [show parseIntBytes [45, 49] = some (-1) from by decide]
      dsimp only
      rw [if_pos rfl]
    | arrayV es =>
      rw [goWF, Bool.and_eq_true, decide_eq_true_eq] at hwf
      rw [noLF] at hlf
      rw [depth] at hd
      rw [serialize, show (42 :: (natDecimal es.length ++ crlf ++ serializeList es)) ++ rest =
        42 :: (natDecimal es.length ++ 13 :: 10 :: (serializeList es ++ rest)) by simp [crlf],
        parseStep, if_neg (by decide), if_neg (by decide), if_neg (by decide),
        if_neg (by decide), if_pos rfl,
        readLine_append (natDecimal es.length) _ (natDecimal_no_lf _)]
      dsimp only
      rw [parseIntBytes_natDecimal es.length hwf.1]
      dsimp only
      rw [if_neg (by omega), if_neg (by omega), Int.toNat_natCast,
        parseCount_serializeList (parseFuel fuel) es rest
          (fun w hw r => ih w r (goWFList_mem hwf.2 hw) (noLFList_mem hlf hw)
            (by have := depthList_mem hw; omega))]
    | nullArray =>
      rw [serialize, show ([42, 45, 49, 13, 10] : List Nat) ++ rest =
        42 :: (45 :: 49 :: 13 :: 10 :: rest) by simp, parseStep,
        if_neg (by decide), if_neg (by decide), if_neg (by decide), if_neg (by decide),
        if_pos rfl]
      have hr : readLine (45 :: 49 :: 13 :: 10 :: rest) = some ([45, 49], rest) :=
        readLine_append [45, 49] rest (by simp)
      rw [hr]
      dsimp only
      rw [show parseIntBytes [45, 49] = some (-1) from by decide]
      dsimp only
      rw [if_pos rfl]

/-- C1 counterexample: the simple string whose content is a single line
feed byte is constructible and free of the terminator sequence, yet
parsing its serialization fails instead of returning the value, because
readLine stops at the first line feed and then rejects the line. -/
theorem c1_crlf_free_not_sufficient :
    goWF (RESPValue.simpleString [10]) = true ∧
    noLF (RESPValue.simpleString [10]) = false ∧
    containsCRLF [10] = false ∧
    parseGo (serialize (RESPValue.simpleString [10])) = none := by decide

/-- C1, amended: for every constructible protocol value whose simple
string and error content contains no line feed byte at all (a strictly
stronger caveat than freedom from the two-byte terminator sequence),
parsing the serialization returns a structurally equal value and consumes
the entire stream. -/
theorem c1_parse_serialize_roundtrip (v : RESPValue)
    (hwf : goWF v = true) (hlf : noLF v = true) :
    parseGo (serialize v) = some (v, []) := by
  have h := parseFuel_serialize ((serialize v).length + 1) v [] hwf hlf
    (Nat.le_trans (depth_le_serialize v) (Nat.le_succ _))
  rw [List.append_nil] at h
  rw [parseGo]
  exact h

/-- C1 witness: a concrete nested value running through the amended round
trip. -/
theorem c1_parse_serialize_roundtrip_witness :
    goWF (RESPValue.arrayV [.simpleString [79, 75], .integer (-42),
      .bulkString [0, 13, 10, 255], .nullBulkString, .nullArray, .arrayV []]) = true ∧
    noLF (RESPValue.arrayV [.simpleString [79, 75], .integer (-42),
      .bulkString [0, 13, 10, 255], .nullBulkString, .nullArray, .arrayV []]) = true ∧
    parseGo (serialize (RESPValue.arrayV [.simpleString [79, 75], .integer (-42),
      .bulkString [0, 13, 10, 255], .nullBulkString, .nullArray, .arrayV []])) =
      some (RESPValue.arrayV [.simpleString [79, 75], .integer (-42),
        .bulkString [0, 13, 10, 255], .nullBulkString, .nullArray, .arrayV []], []) :=
  ⟨by decide, by decide, c1_parse_serialize_roundtrip _ (by decide) (by decide)⟩

/-- C5 counterexample: a bulk string whose payload is followed by a junk
byte before the terminator parses successfully, where the claim requires
the two bytes immediately following the payload to be the terminator on
pain of failure; here those bytes are 89 and 13. -/
theorem c5_trailing_junk_accepted :
    parseGo [36, 49, 13, 10, 120, 89, 13, 10] =
      some (.bulkString [120], []) ∧
    [(89 : Nat), 13] ≠ crlf := by decide

/-- C5, amended: the bulk string parser reads a decimal length line;
length -1 yields the null bulk string; any length less than -1 fails;
otherwise it reads exactly that many raw bytes and then reads and discards
one whole line, so it succeeds exactly when some line-feed-free junk
followed by the two-byte terminator follows the payload, rather than
requiring the terminator immediately. -/
theorem c5_parseBulk_spec (input line rest : List Nat) (len : Int)
    (h1 : readLine input = some (line, rest)) (h2 : parseIntBytes line = some len) :
    (len = -1 → parseBulk input = some (.nullBulkString, rest)) ∧
    (len < -1 → parseBulk input = none) ∧
    (0 ≤ len → ∀ (d r : List Nat),
      (parseBulk input = some (.bulkString d, r) ↔
        d = rest.take len.toNat ∧ len.toNat ≤ rest.length ∧
        ∃ junk, (10 : Nat) ∉ junk ∧ rest.drop len.toNat = junk ++ 13 :: 10 :: r)) := by
  refine ⟨?_, ?_, ?_⟩
  · intro hm1
    rw [parseBulk, h1]
    dsimp only
    rw [h2]
    dsimp only
    rw [if_pos hm1]
  · intro hlt
    rw [parseBulk, h1]
    dsimp only
    rw [h2]
    dsimp only
    rw [if_neg (by omega), if_pos (by omega)]
  · intro h0 d r
    rw [parseBulk, h1]
    dsimp only
    rw [h2]
    dsimp only
    rw [if_neg (by omega), if_neg (by omega)]
    by_cases hL : rest.length < len.toNat
    · rw [if_pos hL]
      constructor
      · intro h
        exact absurd h (by simp)
      · rintro ⟨-, hle, -⟩
        omega
    · rw [if_neg hL]
      rcases hr2 : readLine (rest.drop len.toNat) with _ | p
      · dsimp only
        constructor
        · intro h
          exact absurd h (by simp)
        · rintro ⟨-, -, junk, hj, hdrop⟩
          have hcontra : readLine (rest.drop len.toNat) = some (junk, r) :=
            (readLine_some_iff _ _ _).mpr ⟨hj, hdrop⟩
          rw [hr2] at hcontra
          cases hcontra
      · obtain ⟨junk0, r0⟩ := p
        dsimp only
        obtain ⟨hj0, hdec0⟩ := (readLine_some_iff _ _ _).mp hr2
        constructor
        · intro h
          injection h with h
          injection h with hv hr
          have hd : d = rest.take len.toNat := by
            have := congrArg (fun x => match x with
              | RESPValue.bulkString s => s
              | _ => []) hv
            exact this.symm
          exact ⟨hd, by omega, junk0, hj0, hr ▸ hdec0⟩
        · rintro ⟨rfl, hle, junk, hj, hdrop⟩
          have h3 : readLine (rest.drop len.toNat) = some (junk, r) :=
            (readLine_some_iff _ _ _).mpr ⟨hj, hdrop⟩
          rw [hr2] at h3
          injection h3 with h3
          injection h3 with h31 h32
          rw [h32]

/-- C5 witness: a well-terminated one-byte bulk string accepted through the
amended characterization. -/
theorem c5_parseBulk_spec_witness :
    parseBulk [49, 13, 10, 120, 13, 10] = some (.bulkString [120], []) :=
  ((c5_parseBulk_spec [49, 13, 10, 120, 13, 10] [49] [120, 13, 10] 1
    (by decide) (by decide)).2.2 (by decide) [120] []).mpr
    ⟨by decide, by decide, [], by decide, by decide⟩

/-- C7: for every key and value and any starting store, Set followed by
Get on that key finds the key and returns exactly the stored value; the
some result models the Go pair of the value with found = true. -/
theorem c7_set_then_get (s : Store) (k v : List Nat) :
    storeGet (storeSet s k v) k = some v := by
  rw [storeGet, storeSet, if_pos rfl]

/-- C8: a key that is absent from the store is reported as not found by
Get, modelled by the none result, and the GET executor invoked with that
single key answers the null bulk string, which is a different constructor
from any empty bulk string, leaving the store unchanged. -/
theorem c8_get_miss (s : Store) (k : List Nat) (h : s k = none) :
    storeGet s k = none ∧ handleGet s [k] = (.nullBulkString, s) := by
  refine ⟨h, ?_⟩
  rw [handleGet, h]

/-- C8 witness: the empty store misses a concrete key. -/
theorem c8_get_miss_witness :
    storeGet (fun _ => none) [97] = none ∧
    handleGet (fun _ => none) [[97]] = (.nullBulkString, fun _ => none) :=
  c8_get_miss (fun _ => none) [97] rfl

/-- C4 counterexample: with two arguments the PING executor answers the
arity error whose text carries the ERR prefix, so it differs from the
error text the claim quotes, which lacks that prefix. -/
theorem c4_ping_error_text_differs :
    handlePing [[97], [98]] = .errorMsg (wrongArgsMsg (strBytes "PING")) ∧
    wrongArgsMsg (strBytes "PING") ≠
      strBytes "wrong number of arguments for " ++ [39] ++ strBytes "PING" ++ [39] ++
        strBytes " command" := by decide

/-- C4, amended: the PING executor answers the simple string PONG for zero
arguments, echoes the single argument byte for byte as a bulk string for
one argument, and answers the arity error message, which reads ERR wrong
number of arguments for the quoted command name, for two or more. -/
theorem c4_handlePing_spec :
    handlePing [] = .simpleString (strBytes "PONG") ∧
    (∀ m : List Nat, handlePing [m] = .bulkString m) ∧
    (∀ (a b : List Nat) (ms : List (List Nat)),
      handlePing (a :: b :: ms) = .errorMsg (wrongArgsMsg (strBytes "PING"))) :=
  ⟨rfl, fun _ => rfl, fun _ _ _ => rfl⟩

/-- Counting loop of handleExists counts argument positions whose key is
present, occurrences included. -/
theorem countExists_eq_countP (s : Store) :
    ∀ args : List (List Nat),
      countExists s args = ((args.countP (fun k => (s k).isSome) : Nat) : Int)
  | [] => by simp [countExists]
  | k :: ks => by
    rw [countExists, countExists_eq_countP s ks, List.countP_cons]
    by_cases h : (s k).isSome <;> simp [h]
    ring

/-- C3: with at least one argument the EXISTS executor answers the integer
number of argument positions whose key is currently present, a repeated
present key counting once per occurrence, and the store is unchanged. -/
theorem c3_exists_count (s : Store) (args : List (List Nat)) (h : args ≠ []) :
    handleExists s args =
      (.integer ((args.countP (fun k => (s k).isSome) : Nat) : Int), s) := by
  rcases args with _ | ⟨a, l⟩
  · exact absurd rfl h
  · rw [show handleExists s (a :: l) = (.integer (countExists s (a :: l)), s) from rfl,
      countExists_eq_countP]

/-- C3 witness: two occurrences of a present key and one absent key give
the count two. -/
theorem c3_exists_count_witness :
    handleExists (storeSet (fun _ => none) [97] [49]) [[97], [98], [97]] =
      (.integer (([[97], [98], [97]].countP
        (fun k => ((storeSet (fun _ => none) [97] [49]) k).isSome) : Nat) : Int),
       storeSet (fun _ => none) [97] [49]) :=
  c3_exists_count (storeSet (fun _ => none) [97] [49]) [[97], [98], [97]] (by decide)

/-- C6: SET with an argument count other than two, GET with an argument
count other than one, and EXISTS and DEL with no arguments each answer an
error value and return the store exactly as received, mutating nothing. -/
theorem c6_wrong_arity_no_mutation (s : Store) (args : List (List Nat)) :
    (args.length ≠ 2 →
      (handleSet s args).1 = .errorMsg (wrongArgsMsg (strBytes "SET")) ∧
      (handleSet s args).2 = s) ∧
    (args.length ≠ 1 →
      (handleGet s args).1 = .errorMsg (wrongArgsMsg (strBytes "GET")) ∧
      (handleGet s args).2 = s) ∧
    (args = [] →
      (handleExists s args).1 = .errorMsg (wrongArgsMsg (strBytes "EXISTS")) ∧
      (handleExists s args).2 = s) ∧
    (args = [] →
      (handleDel s args).1 = .errorMsg (wrongArgsMsg (strBytes "DEL")) ∧
      (handleDel s args).2 = s) := by
  refine ⟨?_, ?_, ?_, ?_⟩
  · intro h
    rcases args with _ | ⟨a, _ | ⟨b, _ | ⟨c, l⟩⟩⟩
    · exact ⟨rfl, rfl⟩
    · exact ⟨rfl, rfl⟩
    · exact absurd rfl h
    · exact ⟨rfl, rfl⟩
  · intro h
    rcases args with _ | ⟨a, _ | ⟨b, l⟩⟩
    · exact ⟨rfl, rfl⟩
    · exact absurd rfl h
    · exact ⟨rfl, rfl⟩
  · rintro rfl
    exact ⟨rfl, rfl⟩
  · rintro rfl
    exact ⟨rfl, rfl⟩

/-- C6 witness: concrete wrong-arity calls on the empty store. -/
theorem c6_wrong_arity_no_mutation_witness :
    ((handleSet (fun _ => none) [[97]]).1 = .errorMsg (wrongArgsMsg (strBytes "SET")) ∧
      (handleSet (fun _ => none) [[97]]).2 = (fun _ => none)) ∧
    ((handleGet (fun _ => none) []).1 = .errorMsg (wrongArgsMsg (strBytes "GET")) ∧
      (handleGet (fun _ => none) []).2 = (fun _ => none)) ∧
    ((handleExists (fun _ => none) []).1 = .errorMsg (wrongArgsMsg (strBytes "EXISTS")) ∧
      (handleExists (fun _ => none) []).2 = (fun _ => none)) ∧
    ((handleDel (fun _ => none) []).1 = .errorMsg (wrongArgsMsg (strBytes "DEL")) ∧
      (handleDel (fun _ => none) []).2 = (fun _ => none)) :=
  ⟨(c6_wrong_arity_no_mutation (fun _ => none) [[97]]).1 (by decide),
   (c6_wrong_arity_no_mutation (fun _ => none) []).2.1 (by decide),
   (c6_wrong_arity_no_mutation (fun _ => none) []).2.2.1 rfl,
   (c6_wrong_arity_no_mutation (fun _ => none) []).2.2.2 rfl⟩

/-- The store after DeleteMultiple maps every listed key to nothing and
keeps every other key untouched. -/
theorem storeDeleteMultiple_store (j : List Nat) :
    ∀ (args : List (List Nat)) (s : Store),
      (storeDeleteMultiple s args).2 j = if j ∈ args then none else s j
  | [], s => by simp [storeDeleteMultiple]
  | k :: ks, s => by
    rw [storeDeleteMultiple]
    by_cases h : (s k).isSome
    · rw [if_pos h]
      dsimp only
      rw [storeDeleteMultiple_store j ks (storeErase s k), storeErase]
      by_cases hjk : j = k
      · subst hjk
        simp [List.mem_cons]
      · simp [hjk, List.mem_cons]
    · rw [if_neg h, storeDeleteMultiple_store j ks s]
      by_cases hjk : j = k
      · subst hjk
        have hnone : s j = none := Option.not_isSome_iff_eq_none.mp h
        simp [hnone, List.mem_cons]
      · simp [hjk, List.mem_cons]

/-- The count returned by DeleteMultiple is the number of distinct listed
keys that were present in the store at the start of the call. -/
theorem storeDeleteMultiple_count :
    ∀ (args : List (List Nat)) (s : Store),
      (storeDeleteMultiple s args).1 =
        (args.toFinset.filter (fun k => (s k).isSome)).card
  | [], s => by simp [storeDeleteMultiple]
  | k :: ks, s => by
    rw [storeDeleteMultiple, List.toFinset_cons]
    by_cases h : (s k).isSome
    · rw [if_pos h]
      dsimp only
      rw [storeDeleteMultiple_count ks (storeErase s k)]
      have hfe : (ks.toFinset.filter (fun j => ((storeErase s k) j).isSome)) =
          (ks.toFinset.filter (fun j => (s j).isSome)).erase k := by
        ext j
        simp only [Finset.mem_filter, Finset.mem_erase, storeErase]
        constructor
        · rintro ⟨hj, hsome⟩
          by_cases hjk : j = k
          · rw [if_pos hjk] at hsome
            simp at hsome
          · rw [if_neg hjk] at hsome
            exact ⟨hjk, hj, hsome⟩
        · rintro ⟨hjk, hj, hsome⟩
          rw [if_neg hjk]
          exact ⟨hj, hsome⟩
      rw [hfe, Finset.filter_insert, if_pos h,
        show insert k (ks.toFinset.filter fun j => (s j).isSome) =
          insert k ((ks.toFinset.filter fun j => (s j).isSome).erase k) by
          ext j
          simp only [Finset.mem_insert, Finset.mem_erase]
          constructor
          · rintro (rfl | hj)
            · exact Or.inl rfl
            · by_cases hjk : j = k
              · exact Or.inl hjk
              · exact Or.inr ⟨hjk, hj⟩
          · rintro (rfl | ⟨hjk, hj⟩)
            · exact Or.inl rfl
            · exact Or.inr hj,
        Finset.card_insert_of_not_mem (Finset.not_mem_erase k _)]
    · rw [if_neg h, storeDeleteMultiple_count ks s, Finset.filter_insert, if_neg h]

/-- C2: with at least one argument the DEL executor answers the integer
number of distinct listed keys that were present and hence removed, a key
already removed earlier in the same call never counting again, and after
the call none of the listed keys is present in the store. -/
theorem c2_del_count (s : Store) (args : List (List Nat)) (h : args ≠ []) :
    (handleDel s args).1 =
      .integer (((args.toFinset.filter (fun k => (s k).isSome)).card : Nat) : Int) ∧
    ∀ k ∈ args, (handleDel s args).2 k = none := by
  rcases args with _ | ⟨a, _ | ⟨b, l2⟩⟩
  · exact absurd rfl h
  · rw [show handleDel s [a] =
      (.integer (if (storeDelete s a).1 then 1 else 0), (storeDelete s a).2) from rfl,
      storeDelete]
    by_cases hp : (s a).isSome
    · rw [if_pos hp]
      refine ⟨?_, ?_⟩
      · dsimp only
        rw [if_pos rfl]
        rw [show ([a] : List (List Nat)).toFinset = {a} from rfl, Finset.filter_singleton,
          if_pos hp, Finset.card_singleton]
        norm_num
      · intro k hk
        rcases List.mem_cons.mp hk with rfl | hk
        · dsimp only
          rw [storeErase, if_pos rfl]
        · cases hk
    · rw [if_neg hp]
      refine ⟨?_, ?_⟩
      · dsimp only
        rw [if_neg (by simp)]
        rw [show ([a] : List (List Nat)).toFinset = {a} from rfl, Finset.filter_singleton,
          if_neg hp, Finset.card_empty]
        norm_num
      · intro k hk
        rcases List.mem_cons.mp hk with rfl | hk
        · exact Option.not_isSome_iff_eq_none.mp hp
        · cases hk
  · rw [show handleDel s (a :: b :: l2) =
      (.integer ((storeDeleteMultiple s (a :: b :: l2)).1 : Int),
       (storeDeleteMultiple s (a :: b :: l2)).2) from rfl]
    refine ⟨?_, ?_⟩
    · rw [storeDeleteMultiple_count]
    · intro k hk
      rw [storeDeleteMultiple_store, if_pos hk]

/-- C2 witness: a present key listed twice and an absent key give the
count of the one distinct removal and leave every listed key absent. -/
theorem c2_del_count_witness :
    (handleDel (storeSet (fun _ => none) [97] [49]) [[97], [97], [99]]).1 =
      .integer ((([[97], [97], [99]].toFinset.filter
        (fun k => ((storeSet (fun _ => none) [97] [49]) k).isSome)).card : Nat) : Int) ∧
    ∀ k ∈ [[97], [97], [99]],
      (handleDel (storeSet (fun _ => none) [97] [49]) [[97], [97], [99]]).2 k = none :=
  c2_del_count (storeSet (fun _ => none) [97] [49]) [[97], [97], [99]] (by decide)

/-- C9 counterexample: with a configured maximum of zero the tracked count
has reached the maximum, yet AddConnection still tracks a new record
instead of returning the capacity sentinel, because the Go guard requires
a positive maximum. -/
theorem c9_zero_max_still_tracks :
    (⟨[], 0⟩ : ConnManager).maxClients ≤
      (((⟨[], 0⟩ : ConnManager).connections.length : Nat) : Int) ∧
    (addConnection ⟨[], 0⟩ 7 0).1 = some 7 ∧
    (addConnection ⟨[], 0⟩ 7 0).2.connections.length = 1 := by decide

/-- C9, amended: AddConnection returns the capacity sentinel exactly when
the configured maximum is positive and the tracked count has reached it;
otherwise, including a zero or negative maximum that the code treats as
unlimited, it tracks a record carrying the generated identifier and the
current timestamp, and if the identifier is fresh the active count grows
by one. -/
theorem c9_addConnection_spec (cm : ConnManager) (id : Nat) (now : Int) :
    ((addConnection cm id now).1 = none ↔
      0 < cm.maxClients ∧ cm.maxClients ≤ (cm.connections.length : Int)) ∧
    (¬(0 < cm.maxClients ∧ cm.maxClients ≤ (cm.connections.length : Int)) →
      (∀ p ∈ cm.connections, p.1 ≠ id) →
      (addConnection cm id now).1 = some id ∧
      (addConnection cm id now).2.connections = (id, now) :: cm.connections ∧
      (addConnection cm id now).2.connections.length = cm.connections.length + 1) := by
  constructor
  · constructor
    · intro h
      by_contra hc
      rw [addConnection, if_neg hc] at h
      exact absurd h (by simp)
    · intro hfull
      rw [addConnection, if_pos hfull]
  · intro hnf hfresh
    have hins : connInsert cm.connections id now = (id, now) :: cm.connections := by
      have hany : cm.connections.any (fun p => p.1 = id) = false := by
        rw [List.any_eq_false]
        intro p hp
        simp [hfresh p hp]
      rw [connInsert, if_neg (by simp [hany])]
    rw [addConnection, if_neg hnf]
    exact ⟨rfl, hins, by rw [hins, List.length_cons]⟩

/-- C9 witness: an empty manager with room tracks a fresh identifier. -/
theorem c9_addConnection_spec_witness :
    ((addConnection ⟨[], 5⟩ 7 3).1 = none ↔
      0 < (⟨[], 5⟩ : ConnManager).maxClients ∧
        (⟨[], 5⟩ : ConnManager).maxClients ≤
          (((⟨[], 5⟩ : ConnManager).connections.length : Nat) : Int)) ∧
    ((addConnection ⟨[], 5⟩ 7 3).1 = some 7 ∧
      (addConnection ⟨[], 5⟩ 7 3).2.connections = [(7, 3)] ∧
      (addConnection ⟨[], 5⟩ 7 3).2.connections.length = 0 + 1) :=
  ⟨(c9_addConnection_spec ⟨[], 5⟩ 7 3).1,
   (c9_addConnection_spec ⟨[], 5⟩ 7 3).2 (by decide) (by decide)⟩

/-- C10: Execute is total in the model and covers the whole input domain:
the nil command, modelled as none, answers the fixed nil error with the
store untouched, and any name outside the five dispatch cases answers an
error message that quotes, and therefore contains, that name, also with
the store untouched. -/
theorem c10_execute_total (s : Store) :
    execute none s = (.errorMsg (strBytes "ERR command cannot be nil"), s) ∧
    (∀ (name : List Nat) (args : List (List Nat)),
      name ∉ [strBytes "PING", strBytes "SET", strBytes "GET",
        strBytes "EXISTS", strBytes "DEL"] →
      execute (some ⟨name, args⟩) s = (.errorMsg (unknownCmdMsg name), s) ∧
      ∃ pre suf, unknownCmdMsg name = pre ++ name ++ suf) := by
  constructor
  · rfl
  · intro name args hmem
    simp only [List.mem_cons, List.not_mem_nil, or_false, not_or] at hmem
    obtain ⟨h1, h2, h3, h4, h5⟩ := hmem
    refine ⟨?_, strBytes "ERR unknown command " ++ [39], [39], by
      rw [unknownCmdMsg]⟩
    rw [execute]
    dsimp only
    rw [if_neg h1, if_neg h2, if_neg h3, if_neg h4, if_neg h5]

/-- C10 witness: the nil command and a concrete unknown name. -/
theorem c10_execute_total_witness :
    execute none (fun _ => none) =
      (.errorMsg (strBytes "ERR command cannot be nil"), fun _ => none) ∧
    (execute (some ⟨strBytes "FOO", []⟩) (fun _ => none) =
      (.errorMsg (unknownCmdMsg (strBytes "FOO")), fun _ => none) ∧
      ∃ pre suf, unknownCmdMsg (strBytes "FOO") = pre ++ strBytes "FOO" ++ suf) :=
  ⟨(c10_execute_total (fun _ => none)).1,
   (c10_execute_total (fun _ => none)).2 (strBytes "FOO") [] (by decide)⟩

end GoRedisLite
